import Mathlib

/-!
Verification of the connection pool in `src/mongo/client/connection_pool.cpp`.

The pool state is embedded shallowly:

* `Date` models `Date_t`: a finite clock value in seconds, or `Date.top`
  modelling `Date_t::max()` (the `kNeverTooStale` sentinel).
* `ConnInfo` models `ConnectionInfo`: a connection handle (identified by a
  numeric id standing for the `DBClientConnection*`), the endpoint it is
  connected to (`conn->getServerHostAndPort()`), its creation date, and the
  transport shutdown flag of its messaging port (set by
  `closeAllInUseConnections`).
* `PoolState` models the fields of `ConnectionPool`: the endpoint-to-idle-list
  map `_connections`, the in-use list `_inUseConnections`, the
  endpoint-to-last-activity map `_lastUsedHosts` and `_lastCleanUpTime`.
  `std::map` is modelled as an association list with unique keys (`mapFind`,
  `mapSet`).  The extra fields `destroyed` (ids whose handle was passed to
  `delete`) and `nextId` (fresh-handle counter) make destruction and dialing
  observable; they correspond to no pool field.
* Blocking I/O performed by external collaborators (`isStillConnected`,
  `connect`, `auth`) is resolved by an `AcquireEnv` oracle.

Modelled from the spec: the header `connection_pool.h` (declarations of the
containers, `typedef std::list<ConnectionInfo> ConnectionList`,
`typedef std::map<HostAndPort, ConnectionList> HostConnectionMap`,
`typedef std::map<HostAndPort, Date_t> HostLastUsedMap`) is not under `src/`;
the container shapes follow the data-model section of the spec, and the
initial pool state has empty containers with `_lastCleanUpTime` at the epoch
(a default-constructed `Date_t`).
-/

/-- A `Date_t` value: a finite number of seconds, or the maximal date
`Date_t::max()`. -/
inductive Date where
  | d : Nat → Date
  | top : Date
deriving DecidableEq, Repr

/-- The `operator<=` of `Date_t`. -/
def Date.le : Date → Date → Bool
  | .d m, .d n => decide (m ≤ n)
  | _, .top => true
  | .top, .d _ => false

/-- `kNeverTooStale = Date_t::max()`. -/
def kNeverTooStale : Date := Date.top

/-- `kCleanUpInterval` (5 minutes), in seconds. -/
def kCleanUpInterval : Nat := 300

/-- `kMaxConnectionAge` (30 seconds), in seconds. -/
def kMaxConnectionAge : Nat := 30

/-- A `ConnectionInfo` record: the owned handle (as a numeric identity for the
`DBClientConnection*`), the endpoint the handle is connected to, its creation
date (always a finite clock value, assigned by `acquireConnection`), and the
shutdown flag of its messaging port. -/
structure ConnInfo where
  connId : Nat
  host : Nat
  created : Nat
  portShutdown : Bool
deriving DecidableEq, Repr

/-- Finds the value bound to key `k` in an association list
(`std::map::find`). -/
def mapFind (k : Nat) : List (Nat × α) → Option α
  | [] => none
  | (k1, v) :: rest => if k = k1 then some v else mapFind k rest

/-- Binds key `k` to `v`, replacing an existing binding
(`std::map::operator[] = v`). -/
def mapSet (k : Nat) (v : α) : List (Nat × α) → List (Nat × α)
  | [] => [(k, v)]
  | (k1, v1) :: rest => if k = k1 then (k, v) :: rest else (k1, v1) :: mapSet k v rest

/-- The fields of `ConnectionPool`, plus the observation fields `destroyed`
(handle ids that have been `delete`d) and `nextId` (source of fresh handle
ids). -/
structure PoolState where
  connections : List (Nat × List ConnInfo)
  inUseConnections : List ConnInfo
  lastUsedHosts : List (Nat × Date)
  lastCleanUpTime : Nat
  destroyed : List Nat
  nextId : Nat
deriving DecidableEq, Repr

/-- A freshly constructed pool: all containers empty, last sweep at the
epoch. -/
def initialPool : PoolState :=
  { connections := [], inUseConnections := [], lastUsedHosts := [],
    lastCleanUpTime := 0, destroyed := [], nextId := 0 }

/-- `ConnectionPool::_shouldKeepConnection`: keep the record unless
`creationDate + kMaxConnectionAge <= now`. -/
def shouldKeepConnection (now : Date) (ci : ConnInfo) : Bool :=
  if Date.le (.d (ci.created + kMaxConnectionAge)) now then false else true

/-- `ConnectionPool::_cleanUpOlderThan_inlock(now, hostConns)` applied to one
idle list: the surviving records, paired with the ids of the records that were
destroyed. -/
def cleanUpConnList (now : Date) (l : List ConnInfo) : List ConnInfo × List Nat :=
  (l.filter (shouldKeepConnection now),
   (l.filter (fun c => ! shouldKeepConnection now c)).map ConnInfo.connId)

/-- `ConnectionPool::_cleanUpOlderThan_inlock(now)` applied to the host map:
every idle list is swept and hosts left with an empty list are erased from the
map.  Returns the new map and the destroyed handle ids. -/
def cleanUpHostMap (now : Date) : List (Nat × List ConnInfo) → List (Nat × List ConnInfo) × List Nat
  | [] => ([], [])
  | (h, l) :: rest =>
    let swept := cleanUpConnList now l
    let tail := cleanUpHostMap now rest
    (if swept.1.isEmpty then tail.1 else (h, swept.1) :: tail.1, swept.2 ++ tail.2)

/-- `ConnectionPool::cleanUpOlderThan(now)`. -/
def cleanUpOlderThan (now : Date) (s : PoolState) : PoolState :=
  let swept := cleanUpHostMap now s.connections
  { s with connections := swept.1, destroyed := s.destroyed ++ swept.2 }

/-- The effect of `iter->conn->port().shutdown()` on a record. -/
def shutdownConn (c : ConnInfo) : ConnInfo := { c with portShutdown := true }

/-- `ConnectionPool::closeAllInUseConnections`: shuts down the port of every
in-use record, removing nothing. -/
def closeAllInUseConnections (s : PoolState) : PoolState :=
  { s with inUseConnections := s.inUseConnections.map shutdownConn }

/-- The loop body of `ConnectionPool::_cleanUpStaleHosts_inlock`: for every
host whose last-used date is at most `lastCleanUp`, the source copies that
host's idle list BY VALUE (`ConnectionList connList = _connections.find(...)->second;`),
sweeps the copy (deleting the handles of the expired records), and resets the
host's last-used date to `kNeverTooStale`.  Because the sweep runs on a copy,
the `connections` map itself is NOT modified; only the handle ids of the
expired records are destroyed.  A host missing from `connections` is looked up
without a check in the source (`find(...)->second` on `end()`); the model
reads an empty list there.  Returns the new last-used map and the destroyed
handle ids. -/
def sweepStaleHosts (now lastCleanUp : Nat) (connections : List (Nat × List ConnInfo)) :
    List (Nat × Date) → List (Nat × Date) × List Nat
  | [] => ([], [])
  | (h, d) :: rest =>
    let tail := sweepStaleHosts now lastCleanUp connections rest
    if Date.le d (.d lastCleanUp) then
      let connList := (mapFind h connections).getD []
      ((h, kNeverTooStale) :: tail.1,
       (cleanUpConnList (.d now) connList).2 ++ tail.2)
    else ((h, d) :: tail.1, tail.2)

/-- `ConnectionPool::_cleanUpStaleHosts_inlock(now)`: gated by
`now > _lastCleanUpTime + kCleanUpInterval`. -/
def cleanUpStaleHosts (now : Nat) (s : PoolState) : PoolState :=
  if s.lastCleanUpTime + kCleanUpInterval < now then
    let swept := sweepStaleHosts now s.lastCleanUpTime s.connections s.lastUsedHosts
    { s with lastUsedHosts := swept.1, destroyed := s.destroyed ++ swept.2,
             lastCleanUpTime := now }
  else s

/-- Outcome of the unlocked validation of one idle candidate (the `try` block
of `acquireConnection`): `ok` means `isStillConnected()` returned true and
`setSoTimeout` returned; `dead` means `isStillConnected()` returned false;
`exn` means the block threw. -/
inductive ProbeOutcome where
  | ok : ProbeOutcome
  | dead : ProbeOutcome
  | exn : ProbeOutcome
deriving DecidableEq, Repr

/-- The error kinds `acquireConnection` can let escape: the rethrown probe
exception (`catch (...) { ...; throw; }`), the `uassert(28640, ...)` dial
failure, and an authentication failure (missing internal credentials or a
throw from `conn->auth`). -/
inductive AcquireError where
  | probeFailure : AcquireError
  | connectFailed : AcquireError
  | authFailed : AcquireError
deriving DecidableEq, Repr

/-- The external collaborators consulted by `acquireConnection` while the lock
is dropped: the probe outcome per handle id, whether `conn->connect`
succeeds, `isAuthEnabled()`, `isInternalAuthSet()`, and whether `conn->auth`
succeeds. -/
structure AcquireEnv where
  probe : Nat → ProbeOutcome
  dialOk : Bool
  authEnabled : Bool
  internalAuthSet : Bool
  authOk : Bool

/-- How the candidate loop of `acquireConnection` was left. -/
inductive LoopOutcome where
  | fallThrough : LoopOutcome
  | found : ConnInfo → LoopOutcome
  | threw : LoopOutcome
deriving DecidableEq, Repr

/-- The `for` loop of `ConnectionPool::acquireConnection` (lines 134-168).
Each iteration: look up the target's idle list (`fallThrough` if absent),
sweep it in place, on empty set the last-used date to `kNeverTooStale` and
fall through; otherwise splice the front record into `_inUseConnections` and
validate it unlocked.  A live candidate is returned; a dead one is destroyed
and the loop retries; a throwing one is destroyed and the exception
propagates.  Each iteration removes at least one record from the target's
idle list, so a fuel of one plus that list's length never runs out; the
fuel-exhausted branch is unreachable. -/
def acquireConnectionLoop (probe : Nat → ProbeOutcome) (now target : Nat) :
    Nat → PoolState → PoolState × LoopOutcome
  | 0, s => (s, .fallThrough)
  | fuel + 1, s =>
    match mapFind target s.connections with
    | none => (s, .fallThrough)
    | some l =>
      let swept := cleanUpConnList (.d now) l
      let s1 : PoolState :=
        { s with connections := mapSet target swept.1 s.connections,
                 destroyed := s.destroyed ++ swept.2 }
      match swept.1 with
      | [] =>
        ({ s1 with lastUsedHosts := mapSet target kNeverTooStale s1.lastUsedHosts },
         .fallThrough)
      | c :: rest =>
        let s2 : PoolState :=
          { s1 with connections := mapSet target rest s1.connections,
                    inUseConnections := c :: s1.inUseConnections }
        match probe c.connId with
        | .ok => (s2, .found c)
        | .exn =>
          ({ s2 with inUseConnections := s2.inUseConnections.erase c,
                     destroyed := s2.destroyed ++ [c.connId] }, .threw)
        | .dead =>
          acquireConnectionLoop probe now target fuel
            { s2 with inUseConnections := s2.inUseConnections.erase c,
                      destroyed := s2.destroyed ++ [c.connId] }

/-- The fallback dial path of `acquireConnection` (lines 170-195): dial a new
handle, fail with `connectFailed` if the dial fails, fail with `authFailed`
if auth is enabled and internal credentials are missing or rejected,
otherwise insert the fresh record at the front of `_inUseConnections`. -/
def dialNewConnection (env : AcquireEnv) (now target : Nat) (s : PoolState) :
    PoolState × Except AcquireError ConnInfo :=
  if ! env.dialOk then (s, .error .connectFailed)
  else if env.authEnabled && ! env.internalAuthSet then (s, .error .authFailed)
  else if env.authEnabled && ! env.authOk then (s, .error .authFailed)
  else
    let c : ConnInfo := { connId := s.nextId, host := target, created := now,
                          portShutdown := false }
    ({ s with inUseConnections := c :: s.inUseConnections, nextId := s.nextId + 1 },
     .ok c)

/-- `ConnectionPool::acquireConnection(target, now, timeout)`: stale-host
sweep, then the candidate loop, then the fallback dial. -/
def acquireConnection (env : AcquireEnv) (now target : Nat) (s : PoolState) :
    PoolState × Except AcquireError ConnInfo :=
  let s0 := cleanUpStaleHosts now s
  let fuel := ((mapFind target s0.connections).getD []).length + 1
  match acquireConnectionLoop env.probe now target fuel s0 with
  | (s1, .found c) => (s1, .ok c)
  | (s1, .threw) => (s1, .error .probeFailure)
  | (s1, .fallThrough) => dialNewConnection env now target s1

/-- `ConnectionPool::releaseConnection(iter, now)` for the record `r`
(which the caller owns in `_inUseConnections`). -/
def releaseConnection (now : Nat) (r : ConnInfo) (s : PoolState) : PoolState :=
  if ! shouldKeepConnection (.d now) r then
    { s with inUseConnections := s.inUseConnections.erase r,
             destroyed := s.destroyed ++ [r.connId] }
  else
    let hostList := (mapFind r.host s.connections).getD []
    let swept := cleanUpConnList (.d now) hostList
    { s with connections := mapSet r.host (r :: swept.1) s.connections,
             inUseConnections := s.inUseConnections.erase r,
             lastUsedHosts := mapSet r.host (.d now) s.lastUsedHosts,
             destroyed := s.destroyed ++ swept.2 }

/-- `ConnectionPool::destroyConnection(iter)` for the record `r` owned in
`_inUseConnections`. -/
def destroyConnection (r : ConnInfo) (s : PoolState) : PoolState :=
  { s with inUseConnections := s.inUseConnections.erase r,
           destroyed := s.destroyed ++ [r.connId] }

/-- `ConnectionPool::ConnectionPtr`: `hasPool` models `_pool != NULL`, and
`record` models the `_connInfo` iterator. -/
structure ConnectionPtr where
  hasPool : Bool
  record : ConnInfo
deriving DecidableEq, Repr

/-- The `ConnectionPtr` constructor: acquire, and wrap the acquired record
with a live pool pointer; an acquisition error propagates. -/
def acquireScopedConnection (env : AcquireEnv) (now target : Nat) (s : PoolState) :
    PoolState × Except AcquireError ConnectionPtr :=
  match acquireConnection env now target s with
  | (s1, .ok c) => (s1, .ok { hasPool := true, record := c })
  | (s1, .error e) => (s1, .error e)

/-- `ConnectionPtr::done(now)`: release the record and null the pool
pointer. -/
def ConnectionPtr.done (p : ConnectionPtr) (now : Nat) (s : PoolState) :
    ConnectionPtr × PoolState :=
  ({ p with hasPool := false }, releaseConnection now p.record s)

/-- `ConnectionPtr::~ConnectionPtr()`: destroy the record unless the pool
pointer was nulled by `done`. -/
def ConnectionPtr.dtor (p : ConnectionPtr) (s : PoolState) : PoolState :=
  if p.hasPool then destroyConnection p.record s else s

/-- The idle list held for host `h` (empty when `h` is absent from the
map). -/
def idleList (s : PoolState) (h : Nat) : List ConnInfo :=
  (mapFind h s.connections).getD []

/-- Every record stored in a container of the pool: the in-use list and all
idle lists. -/
def poolRecords (s : PoolState) : List ConnInfo :=
  s.inUseConnections ++ (s.connections.map Prod.snd).flatten

/-- The implicit precondition of the stale-host sweep: when the sweep is due
at `now`, every host entry whose last-used date is at most the previous sweep
time has an entry in `connections` — otherwise line 114 of the source
dereferences the `end()` iterator. -/
def staleSweepLookupSafe (now : Nat) (s : PoolState) : Prop :=
  s.lastCleanUpTime + kCleanUpInterval < now →
  ∀ p ∈ s.lastUsedHosts, Date.le p.2 (.d s.lastCleanUpTime) = true →
    (mapFind p.1 s.connections).isSome = true

/-- The reachable pool states, tagged with a bound on every clock value passed
to a timed operation so far; the clock values supplied by callers never
decrease. -/
inductive Reached : PoolState → Nat → Prop where
  | init : Reached initialPool 0
  | acq (s : PoolState) (t : Nat) (env : AcquireEnv) (now target : Nat) :
      Reached s t → t ≤ now → Reached (acquireConnection env now target s).1 now
  | rel (s : PoolState) (t : Nat) (now : Nat) (r : ConnInfo) :
      Reached s t → t ≤ now → r ∈ s.inUseConnections →
      Reached (releaseConnection now r s) now
  | des (s : PoolState) (t : Nat) (r : ConnInfo) :
      Reached s t → r ∈ s.inUseConnections → Reached (destroyConnection r s) t
  | clean (s : PoolState) (t : Nat) (now : Date) :
      Reached s t → Reached (cleanUpOlderThan now s) t
  | closeAll (s : PoolState) (t : Nat) :
      Reached s t → Reached (closeAllInUseConnections s) t

/-- On finite dates, `Date.le` is the numeric order. -/
lemma Date.le_d_d {m n : Nat} : Date.le (.d m) (.d n) = true ↔ m ≤ n := by
  simp [Date.le]

/-- `Date.le` to a finite date is false from `Date.top`. -/
lemma Date.top_le_d (n : Nat) : Date.le Date.top (.d n) = false := rfl

/-- A record fails `_shouldKeepConnection` at a finite `now` exactly when its
age bound has been reached. -/
lemma shouldKeepConnection_eq_false_iff {now : Nat} {c : ConnInfo} :
    shouldKeepConnection (.d now) c = false ↔ c.created + kMaxConnectionAge ≤ now := by
  simp [shouldKeepConnection, Date.le]

/-- A record whose creation date is after `now` is kept at `now`. -/
lemma shouldKeepConnection_of_created_gt {now : Date} {c : ConnInfo}
    (h : Date.le (.d c.created) now = false) : shouldKeepConnection now c = true := by
  cases now with
  | top => simp [Date.le] at h
  | d n =>
    simp only [Date.le, decide_eq_false_iff_not] at h
    simp only [shouldKeepConnection, Date.le, kMaxConnectionAge]
    rw [if_neg]
    simp only [decide_eq_true_eq]
    omega

/-- Looking up the key just set returns the new value. -/
lemma mapFind_mapSet_self {α : Type} (k : Nat) (v : α) :
    ∀ m : List (Nat × α), mapFind k (mapSet k v m) = some v := by
  intro m
  induction m with
  | nil => simp [mapFind, mapSet]
  | cons q rest ih =>
    obtain ⟨k1, v1⟩ := q
    simp only [mapSet]
    by_cases hk : k = k1
    · rw [if_pos hk]; simp [mapFind]
    · rw [if_neg hk]; simp only [mapFind, if_neg hk]; exact ih

/-- Looking up a different key is unaffected by `mapSet`. -/
lemma mapFind_mapSet_ne {α : Type} {h k : Nat} (hne : h ≠ k) (v : α) :
    ∀ m : List (Nat × α), mapFind h (mapSet k v m) = mapFind h m := by
  intro m
  induction m with
  | nil => simp [mapFind, mapSet, hne]
  | cons q rest ih =>
    obtain ⟨k1, v1⟩ := q
    simp only [mapSet]
    by_cases hk : k = k1
    · subst hk; simp [mapFind, hne]
    · rw [if_neg hk]; simp only [mapFind]; rw [ih]

/-- Every binding of `mapSet k v m` is the new binding or one of `m`. -/
lemma mem_mapSet {α : Type} {p : Nat × α} {k : Nat} {v : α} :
    ∀ {m : List (Nat × α)}, p ∈ mapSet k v m → p = (k, v) ∨ p ∈ m := by
  intro m
  induction m with
  | nil => intro h; simpa [mapSet] using h
  | cons q rest ih =>
    obtain ⟨k1, v1⟩ := q
    intro h
    simp only [mapSet] at h
    by_cases hk : k = k1
    · rw [if_pos hk] at h
      rcases List.mem_cons.mp h with h1 | h1
      · exact Or.inl h1
      · exact Or.inr (List.mem_cons_of_mem _ h1)
    · rw [if_neg hk] at h
      rcases List.mem_cons.mp h with h1 | h1
      · exact Or.inr (h1 ▸ List.mem_cons_self _ _)
      · rcases ih h1 with h2 | h2
        · exact Or.inl h2
        · exact Or.inr (List.mem_cons_of_mem _ h2)

/-- A successful lookup is a binding of the list. -/
lemma mapFind_mem {α : Type} {k : Nat} {v : α} :
    ∀ {m : List (Nat × α)}, mapFind k m = some v → (k, v) ∈ m := by
  intro m
  induction m with
  | nil => intro h; simp [mapFind] at h
  | cons q rest ih =>
    obtain ⟨k1, v1⟩ := q
    intro h
    simp only [mapFind] at h
    by_cases hk : k = k1
    · rw [if_pos hk] at h
      injection h with h
      exact List.mem_cons.mpr (Or.inl (by rw [hk, h]))
    · rw [if_neg hk] at h
      exact List.mem_cons_of_mem _ (ih h)

/-- Keys of `mapSet k v m` are `k` or keys of `m`. -/
lemma fst_mem_mapSet {α : Type} {a k : Nat} {v : α} :
    ∀ {m : List (Nat × α)}, a ∈ (mapSet k v m).map Prod.fst →
      a = k ∨ a ∈ m.map Prod.fst := by
  intro m h
  rcases List.mem_map.mp h with ⟨p, hp, hpa⟩
  rcases mem_mapSet hp with h1 | h1
  · left; rw [← hpa, h1]
  · right; exact List.mem_map.mpr ⟨p, h1, hpa⟩

/-- `mapSet` preserves distinctness of keys. -/
lemma nodup_keys_mapSet {α : Type} {k : Nat} {v : α} :
    ∀ {m : List (Nat × α)}, (m.map Prod.fst).Nodup →
      ((mapSet k v m).map Prod.fst).Nodup := by
  intro m
  induction m with
  | nil => intro _; simp [mapSet]
  | cons q rest ih =>
    obtain ⟨k1, v1⟩ := q
    intro h
    rw [List.map_cons, List.nodup_cons] at h
    obtain ⟨hk1, hrest⟩ := h
    simp only [mapSet]
    by_cases hk : k = k1
    · rw [if_pos hk]
      rw [List.map_cons, List.nodup_cons]
      exact ⟨by simpa [← hk] using hk1, hrest⟩
    · rw [if_neg hk]
      rw [List.map_cons, List.nodup_cons]
      refine ⟨fun hmem => ?_, ih hrest⟩
      rcases fst_mem_mapSet hmem with h2 | h2
      · exact hk h2.symm
      · exact hk1 h2

/-- With distinct keys, membership determines the lookup. -/
lemma mapFind_of_mem_nodup {α : Type} {k : Nat} {v : α} :
    ∀ {m : List (Nat × α)}, (m.map Prod.fst).Nodup → (k, v) ∈ m →
      mapFind k m = some v := by
  intro m
  induction m with
  | nil => intro _ h; simp at h
  | cons q rest ih =>
    obtain ⟨k1, v1⟩ := q
    intro hnd hmem
    rw [List.map_cons, List.nodup_cons] at hnd
    obtain ⟨hk1, hrest⟩ := hnd
    simp only [mapFind]
    rcases List.mem_cons.mp hmem with h1 | h1
    · injection h1 with h2 h3
      rw [if_pos h2, h3]
    · by_cases hk : k = k1
      · exfalso
        apply hk1
        subst hk
        exact List.mem_map.mpr ⟨(k, v), h1, rfl⟩
      · rw [if_neg hk]
        exact ih hrest h1

/-- Every binding surviving a full `_cleanUpOlderThan_inlock` sweep is the
age-filtered idle list of a binding of the original map. -/
lemma mem_cleanUpHostMap {now : Date} {p : Nat × List ConnInfo} :
    ∀ {m : List (Nat × List ConnInfo)}, p ∈ (cleanUpHostMap now m).1 →
      ∃ l, (p.1, l) ∈ m ∧ p.2 = l.filter (shouldKeepConnection now) := by
  intro m
  induction m with
  | nil => intro h; simp [cleanUpHostMap] at h
  | cons q rest ih =>
    obtain ⟨h1, l1⟩ := q
    intro h
    simp only [cleanUpHostMap, cleanUpConnList] at h
    by_cases he : (l1.filter (shouldKeepConnection now)).isEmpty
    · rw [if_pos he] at h
      rcases ih h with ⟨l, hl, hfl⟩
      exact ⟨l, List.mem_cons_of_mem _ hl, hfl⟩
    · rw [if_neg he] at h
      rcases List.mem_cons.mp h with h2 | h2
      · refine ⟨l1, ?_, ?_⟩
        · rw [show p.1 = h1 from by rw [h2]]
          exact List.mem_cons_self _ _
        · rw [h2]
      · rcases ih h2 with ⟨l, hl, hfl⟩
        exact ⟨l, List.mem_cons_of_mem _ hl, hfl⟩

/-- A host whose idle list survives the full sweep nonempty keeps its
(filtered) binding. -/
lemma mapFind_cleanUpHostMap_pos {now : Date} {h : Nat} {l : List ConnInfo} :
    ∀ {m : List (Nat × List ConnInfo)}, mapFind h m = some l →
      l.filter (shouldKeepConnection now) ≠ [] →
      mapFind h (cleanUpHostMap now m).1 = some (l.filter (shouldKeepConnection now)) := by
  intro m
  induction m with
  | nil => intro hf; simp [mapFind] at hf
  | cons q rest ih =>
    obtain ⟨h1, l1⟩ := q
    intro hf hne
    simp only [mapFind] at hf
    simp only [cleanUpHostMap, cleanUpConnList]
    by_cases hk : h = h1
    · rw [if_pos hk] at hf
      injection hf with hf
      subst hf
      rw [if_neg (by simpa [List.isEmpty_iff] using hne)]
      simp [mapFind, if_pos hk]
    · rw [if_neg hk] at hf
      by_cases he : (l1.filter (shouldKeepConnection now)).isEmpty
      · rw [if_pos he]
        exact ih hf hne
      · rw [if_neg he]
        simp only [mapFind, if_neg hk]
        exact ih hf hne

/-- The ids destroyed by the full sweep are exactly the ids of the age-expired
records of every idle list. -/
lemma cleanUpHostMap_dead (now : Date) :
    ∀ m : List (Nat × List ConnInfo),
      (cleanUpHostMap now m).2 =
        (m.map (fun p => (p.2.filter (fun c => ! shouldKeepConnection now c)).map ConnInfo.connId)).flatten := by
  intro m
  induction m with
  | nil => simp [cleanUpHostMap]
  | cons q rest ih =>
    obtain ⟨h1, l1⟩ := q
    simp only [cleanUpHostMap, cleanUpConnList, List.map_cons, List.flatten_cons]
    rw [ih]

/-- When every idle list is nonempty and every record is kept, the full sweep
changes nothing and destroys nothing. -/
lemma cleanUpHostMap_noop {now : Date} :
    ∀ {m : List (Nat × List ConnInfo)}, (∀ p ∈ m, p.2 ≠ []) →
      (∀ p ∈ m, ∀ c ∈ p.2, shouldKeepConnection now c = true) →
      cleanUpHostMap now m = (m, []) := by
  intro m
  induction m with
  | nil => intro _ _; rfl
  | cons q rest ih =>
    obtain ⟨h1, l1⟩ := q
    intro hne hkeep
    have hfl : l1.filter (shouldKeepConnection now) = l1 :=
      List.filter_eq_self.mpr (hkeep (h1, l1) (List.mem_cons_self _ _))
    have hdead : l1.filter (fun c => ! shouldKeepConnection now c) = [] := by
      rw [List.filter_eq_nil_iff]
      intro c hc
      simp [hkeep (h1, l1) (List.mem_cons_self _ _) c hc]
    have htail : cleanUpHostMap now rest = (rest, []) :=
      ih (fun p hp => hne p (List.mem_cons_of_mem _ hp))
         (fun p hp => hkeep p (List.mem_cons_of_mem _ hp))
    simp only [cleanUpHostMap, cleanUpConnList, hfl, hdead, htail]
    rw [if_neg (by simpa [List.isEmpty_iff] using hne (h1, l1) (List.mem_cons_self _ _))]
    simp

/-- The stale-host sweep preserves the keys of the last-used map. -/
lemma sweepStaleHosts_keys (now lc : Nat) (conn : List (Nat × List ConnInfo)) :
    ∀ lu : List (Nat × Date),
      ((sweepStaleHosts now lc conn lu).1).map Prod.fst = lu.map Prod.fst := by
  intro lu
  induction lu with
  | nil => rfl
  | cons q rest ih =>
    obtain ⟨h1, d1⟩ := q
    simp only [sweepStaleHosts]
    by_cases hd : Date.le d1 (.d lc)
    · rw [if_pos hd]
      simp only [List.map_cons, ih]
    · rw [if_neg (by simpa using hd)]
      simp only [List.map_cons, ih]

/-- A value found in the swept last-used map is the sentinel or was already
bound to the same key. -/
lemma mapFind_sweepStaleHosts {now lc : Nat} {conn : List (Nat × List ConnInfo)}
    {h : Nat} {v : Date} :
    ∀ {lu : List (Nat × Date)}, mapFind h (sweepStaleHosts now lc conn lu).1 = some v →
      v = kNeverTooStale ∨ mapFind h lu = some v := by
  intro lu
  induction lu with
  | nil => intro hf; simp [sweepStaleHosts, mapFind] at hf
  | cons q rest ih =>
    obtain ⟨h1, d1⟩ := q
    intro hf
    simp only [sweepStaleHosts] at hf
    by_cases hd : Date.le d1 (.d lc)
    · rw [if_pos hd] at hf
      simp only [mapFind] at hf
      by_cases hk : h = h1
      · rw [if_pos hk] at hf
        injection hf with hf
        exact Or.inl hf.symm
      · rw [if_neg hk] at hf
        rcases ih hf with h2 | h2
        · exact Or.inl h2
        · right; simp only [mapFind, if_neg hk]; exact h2
    · rw [if_neg (by simpa using hd)] at hf
      simp only [mapFind] at hf
      by_cases hk : h = h1
      · rw [if_pos hk] at hf
        right; simp only [mapFind, if_pos hk]; exact hf
      · rw [if_neg hk] at hf
        rcases ih hf with h2 | h2
        · exact Or.inl h2
        · right; simp only [mapFind, if_neg hk]; exact h2

/-- Membership in the records of the pool, unfolded. -/
lemma mem_poolRecords {c : ConnInfo} {s : PoolState} :
    c ∈ poolRecords s ↔
      c ∈ s.inUseConnections ∨ ∃ p, p ∈ s.connections ∧ c ∈ p.2 := by
  simp only [poolRecords, List.mem_append, List.mem_flatten, List.mem_map]
  constructor
  · rintro (h | ⟨l, ⟨p, hp, hpl⟩, hc⟩)
    · exact Or.inl h
    · exact Or.inr ⟨p, hp, by rw [hpl]; exact hc⟩
  · rintro (h | ⟨p, hp, hc⟩)
    · exact Or.inl h
    · exact Or.inr ⟨p.2, ⟨p, hp, rfl⟩, hc⟩

/-- Every record stored in the pool was created no later than `t`. -/
def recordsBounded (s : PoolState) (t : Nat) : Prop :=
  ∀ c ∈ poolRecords s, c.created ≤ t

/-- Every idle record of a host whose last-used date is the finite date `n`
was created no later than `n`. -/
def idleCreatedBounded (s : PoolState) : Prop :=
  ∀ p ∈ s.connections, ∀ c ∈ p.2, ∀ n : Nat,
    mapFind p.1 s.lastUsedHosts = some (.d n) → c.created ≤ n

/-- The inductive pool invariant backing the stale-sweep emptiness assertion:
creation dates are bounded by the clock, idle records are no younger than
their host's last activity, and the last-used map has distinct keys. -/
def PoolInv (s : PoolState) (t : Nat) : Prop :=
  recordsBounded s t ∧ idleCreatedBounded s ∧ (s.lastUsedHosts.map Prod.fst).Nodup

/-- The invariant is monotone in the clock bound. -/
lemma poolInv_mono {s : PoolState} {t u : Nat} (h : PoolInv s t) (htu : t ≤ u) :
    PoolInv s u :=
  ⟨fun c hc => le_trans (h.1 c hc) htu, h.2.1, h.2.2⟩

/-- A record of a looked-up idle list is bounded by the clock. -/
lemma created_le_of_idle {s : PoolState} {t : Nat} {h : Nat} {l : List ConnInfo}
    {c : ConnInfo} (hrb : recordsBounded s t)
    (hl : mapFind h s.connections = some l) (hc : c ∈ l) : c.created ≤ t :=
  hrb c (mem_poolRecords.mpr (Or.inr ⟨(h, l), mapFind_mem hl, hc⟩))

/-- Replacing a host's idle list by a subset of it (and extending the
destroyed ids) preserves the invariant. -/
lemma poolInv_setIdle {s : PoolState} {t : Nat} {target : Nat}
    {l l2 : List ConnInfo} {dst : List Nat} (h : PoolInv s t)
    (hfind : mapFind target s.connections = some l) (hsub : l2 ⊆ l) :
    PoolInv { s with connections := mapSet target l2 s.connections,
                     destroyed := dst } t := by
  obtain ⟨hrb, hicb, hnd⟩ := h
  refine ⟨?_, ?_, hnd⟩
  · intro c hc
    rcases mem_poolRecords.mp hc with hin | ⟨p, hp, hcp⟩
    · exact hrb c (mem_poolRecords.mpr (Or.inl hin))
    · rcases mem_mapSet hp with h1 | h1
      · subst h1
        exact created_le_of_idle hrb hfind (hsub hcp)
      · exact hrb c (mem_poolRecords.mpr (Or.inr ⟨p, h1, hcp⟩))
  · intro p hp c hc n hf
    rcases mem_mapSet hp with h1 | h1
    · subst h1
      exact hicb (target, l) (mapFind_mem hfind) c (hsub hc) n hf
    · exact hicb p h1 c hc n hf

/-- Marking a host never-stale preserves the invariant. -/
lemma poolInv_setLastUsedTop {s : PoolState} {t : Nat} (target : Nat)
    (h : PoolInv s t) :
    PoolInv { s with lastUsedHosts := mapSet target kNeverTooStale s.lastUsedHosts } t := by
  obtain ⟨hrb, hicb, hnd⟩ := h
  refine ⟨hrb, ?_, nodup_keys_mapSet hnd⟩
  intro p hp c hc n hf
  by_cases hk : p.1 = target
  · rw [hk, mapFind_mapSet_self] at hf
    simp [kNeverTooStale] at hf
  · rw [mapFind_mapSet_ne hk] at hf
    exact hicb p hp c hc n hf

/-- Inserting a record created no later than `t` at the front of the in-use
list preserves the invariant. -/
lemma poolInv_consInUse {s : PoolState} {t : Nat} {c : ConnInfo}
    (h : PoolInv s t) (hc : c.created ≤ t) :
    PoolInv { s with inUseConnections := c :: s.inUseConnections } t := by
  obtain ⟨hrb, hicb, hnd⟩ := h
  refine ⟨?_, hicb, hnd⟩
  intro c1 hc1
  rcases mem_poolRecords.mp hc1 with hin | ⟨p, hp, hcp⟩
  · rcases List.mem_cons.mp hin with h1 | h1
    · rw [h1]; exact hc
    · exact hrb c1 (mem_poolRecords.mpr (Or.inl h1))
  · exact hrb c1 (mem_poolRecords.mpr (Or.inr ⟨p, hp, hcp⟩))

/-- Erasing an in-use record (and extending the destroyed ids) preserves the
invariant. -/
lemma poolInv_eraseInUse {s : PoolState} {t : Nat} (r : ConnInfo)
    {dst : List Nat} (h : PoolInv s t) :
    PoolInv { s with inUseConnections := s.inUseConnections.erase r,
                     destroyed := dst } t := by
  obtain ⟨hrb, hicb, hnd⟩ := h
  refine ⟨?_, hicb, hnd⟩
  intro c hc
  rcases mem_poolRecords.mp hc with hin | ⟨p, hp, hcp⟩
  · exact hrb c (mem_poolRecords.mpr (Or.inl (List.mem_of_mem_erase hin)))
  · exact hrb c (mem_poolRecords.mpr (Or.inr ⟨p, hp, hcp⟩))

/-- The stale-host sweep preserves the invariant (it never touches the
connection map, and only resets last-used dates to the sentinel). -/
lemma poolInv_cleanUpStaleHosts {s : PoolState} {t : Nat} (now : Nat)
    (h : PoolInv s t) : PoolInv (cleanUpStaleHosts now s) t := by
  obtain ⟨hrb, hicb, hnd⟩ := h
  unfold cleanUpStaleHosts
  split
  · refine ⟨?_, ?_, ?_⟩
    · intro c hc
      exact hrb c (mem_poolRecords.mp hc |> fun hx =>
        mem_poolRecords.mpr (by simpa [poolRecords] using hx))
    · intro p hp c hc n hf
      rcases mapFind_sweepStaleHosts hf with h1 | h1
      · simp [kNeverTooStale] at h1
      · exact hicb p hp c hc n h1
    · simpa [sweepStaleHosts_keys] using hnd
  · exact ⟨hrb, hicb, hnd⟩

/-- `cleanUpOlderThan` preserves the invariant. -/
lemma poolInv_cleanUpOlderThan {s : PoolState} {t : Nat} (now : Date)
    (h : PoolInv s t) : PoolInv (cleanUpOlderThan now s) t := by
  obtain ⟨hrb, hicb, hnd⟩ := h
  refine ⟨?_, ?_, hnd⟩
  · intro c hc
    rcases mem_poolRecords.mp hc with hin | ⟨p, hp, hcp⟩
    · exact hrb c (mem_poolRecords.mpr (Or.inl hin))
    · rcases mem_cleanUpHostMap hp with ⟨l, hl, hfl⟩
      refine hrb c (mem_poolRecords.mpr (Or.inr ⟨(p.1, l), hl, ?_⟩))
      exact List.mem_of_mem_filter (hfl ▸ hcp)
  · intro p hp c hc n hf
    rcases mem_cleanUpHostMap hp with ⟨l, hl, hfl⟩
    exact hicb (p.1, l) hl c (List.mem_of_mem_filter (hfl ▸ hc)) n hf

/-- `closeAllInUseConnections` preserves the invariant. -/
lemma poolInv_closeAllInUseConnections {s : PoolState} {t : Nat}
    (h : PoolInv s t) : PoolInv (closeAllInUseConnections s) t := by
  obtain ⟨hrb, hicb, hnd⟩ := h
  refine ⟨?_, hicb, hnd⟩
  intro c hc
  rcases mem_poolRecords.mp hc with hin | ⟨p, hp, hcp⟩
  · rcases List.mem_map.mp hin with ⟨c0, hc0, hsc⟩
    have : c.created = c0.created := by rw [← hsc]; rfl
    rw [this]
    exact hrb c0 (mem_poolRecords.mpr (Or.inl hc0))
  · exact hrb c (mem_poolRecords.mpr (Or.inr ⟨p, hp, hcp⟩))

/-- `destroyConnection` preserves the invariant. -/
lemma poolInv_destroyConnection {s : PoolState} {t : Nat} (r : ConnInfo)
    (h : PoolInv s t) : PoolInv (destroyConnection r s) t :=
  poolInv_eraseInUse r h

/-- `releaseConnection` preserves the invariant when the clock has advanced to
`now` and the released record is no younger than `now`. -/
lemma poolInv_releaseConnection {s : PoolState} {t now : Nat} {r : ConnInfo}
    (h : PoolInv s t) (htn : t ≤ now) (hr : r.created ≤ now) :
    PoolInv (releaseConnection now r s) now := by
  have h1 : PoolInv s now := poolInv_mono h htn
  obtain ⟨hrb, hicb, hnd⟩ := h1
  unfold releaseConnection
  split
  · exact poolInv_eraseInUse r ⟨hrb, hicb, hnd⟩
  · refine ⟨?_, ?_, nodup_keys_mapSet hnd⟩
    · intro c hc
      rcases mem_poolRecords.mp hc with hin | ⟨p, hp, hcp⟩
      · exact hrb c (mem_poolRecords.mpr (Or.inl (List.mem_of_mem_erase hin)))
      · rcases mem_mapSet hp with h2 | h2
        · subst h2
          rcases List.mem_cons.mp hcp with h3 | h3
          · rw [h3]; exact hr
          · have h4 := List.mem_of_mem_filter h3
            cases hfind : mapFind r.host s.connections with
            | none => simp [cleanUpConnList, hfind] at h4
            | some l =>
              rw [hfind] at h4
              exact created_le_of_idle hrb hfind (by simpa [cleanUpConnList] using h4)
        · exact hrb c (mem_poolRecords.mpr (Or.inr ⟨p, h2, hcp⟩))
    · intro p hp c hc n hf
      by_cases hk : p.1 = r.host
      · rw [hk, mapFind_mapSet_self] at hf
        injection hf with hf
        injection hf with hf
        rcases mem_mapSet hp with h2 | h2
        · subst h2
          rcases List.mem_cons.mp hc with h3 | h3
          · rw [h3, ← hf]; exact hr
          · have h4 := List.mem_of_mem_filter h3
            cases hfind : mapFind r.host s.connections with
            | none => simp [cleanUpConnList, hfind] at h4
            | some l =>
              rw [hfind] at h4
              rw [← hf]
              exact created_le_of_idle hrb hfind (by simpa [cleanUpConnList] using h4)
        · rw [← hf]
          exact hrb c (mem_poolRecords.mpr (Or.inr ⟨p, h2, hc⟩))
      · rw [mapFind_mapSet_ne hk] at hf
        rcases mem_mapSet hp with h2 | h2
        · exact absurd (congrArg Prod.fst h2) hk
        · exact hicb p h2 c hc n hf

/-- The candidate loop of `acquireConnection` preserves the invariant: it only
filters and splices records and stamps the sentinel. -/
lemma poolInv_acquireConnectionLoop (probe : Nat → ProbeOutcome) (now target : Nat) :
    ∀ (fuel : Nat) (s : PoolState) (t : Nat), PoolInv s t →
      PoolInv (acquireConnectionLoop probe now target fuel s).1 t := by
  intro fuel
  induction fuel with
  | zero => intro s t h; exact h
  | succ n ih =>
    intro s t h
    rw [acquireConnectionLoop]
    cases hfind : mapFind target s.connections with
    | none => exact h
    | some l =>
      dsimp only [cleanUpConnList]
      cases hkept : l.filter (shouldKeepConnection (.d now)) with
      | nil =>
        exact poolInv_setLastUsedTop target
          (poolInv_setIdle h hfind (List.nil_subset l))
      | cons c rest =>
        dsimp only
        have hckept : c ∈ l.filter (shouldKeepConnection (.d now)) := by
          rw [hkept]; exact List.mem_cons_self _ _
        have hcreated : c.created ≤ t :=
          created_le_of_idle h.1 hfind (List.mem_of_mem_filter hckept)
        have hsub : c :: rest ⊆ l := by
          rw [← hkept]; intro x hx; exact List.mem_of_mem_filter hx
        have hstep :
            PoolInv
              { s with
                connections :=
                  mapSet target rest
                    (mapSet target (c :: rest) s.connections),
                destroyed :=
                  s.destroyed ++
                    (l.filter (fun x => ! shouldKeepConnection (.d now) x)).map
                      ConnInfo.connId,
                inUseConnections := c :: s.inUseConnections } t := by
          have h1 :
              PoolInv
                { s with
                  connections := mapSet target (c :: rest) s.connections,
                  destroyed :=
                    s.destroyed ++
                      (l.filter (fun x => ! shouldKeepConnection (.d now) x)).map
                        ConnInfo.connId } t :=
            poolInv_setIdle h hfind hsub
          have h2 :
              PoolInv
                { s with
                  connections :=
                    mapSet target rest
                      (mapSet target (c :: rest) s.connections),
                  destroyed :=
                    s.destroyed ++
                      (l.filter (fun x => ! shouldKeepConnection (.d now) x)).map
                        ConnInfo.connId } t :=
            poolInv_setIdle h1 (by rw [mapFind_mapSet_self])
              (List.subset_cons_self c rest)
          exact poolInv_consInUse h2 hcreated
        cases hp : probe c.connId with
        | ok => exact hstep
        | exn => exact poolInv_eraseInUse c hstep
        | dead => exact ih _ t (poolInv_eraseInUse c hstep)

/-- The fallback dial preserves the invariant at `now` (the fresh record is
created at `now`). -/
lemma poolInv_dialNewConnection {s : PoolState} {now : Nat} (env : AcquireEnv)
    (target : Nat) (h : PoolInv s now) :
    PoolInv (dialNewConnection env now target s).1 now := by
  unfold dialNewConnection
  split
  · exact h
  · split
    · exact h
    · split
      · exact h
      · exact poolInv_consInUse h (le_refl now)

/-- `acquireConnection` preserves the invariant once the clock is advanced to
`now`. -/
lemma poolInv_acquireConnection {s : PoolState} {t now target : Nat}
    (env : AcquireEnv) (h : PoolInv s t) (htn : t ≤ now) :
    PoolInv (acquireConnection env now target s).1 now := by
  have h0 : PoolInv (cleanUpStaleHosts now s) now :=
    poolInv_cleanUpStaleHosts now (poolInv_mono h htn)
  have h1 := poolInv_acquireConnectionLoop env.probe now target
    (((mapFind target (cleanUpStaleHosts now s).connections).getD []).length + 1)
    (cleanUpStaleHosts now s) now h0
  unfold acquireConnection
  dsimp only
  cases hloop : acquireConnectionLoop env.probe now target
      (((mapFind target (cleanUpStaleHosts now s).connections).getD []).length + 1)
      (cleanUpStaleHosts now s) with
  | mk s1 outcome =>
    rw [hloop] at h1
    cases outcome with
    | fallThrough => exact poolInv_dialNewConnection env target h1
    | found c => exact h1
    | threw => exact h1

/-- Every reachable pool state satisfies the invariant. -/
lemma poolInv_reached : ∀ {s : PoolState} {t : Nat}, Reached s t → PoolInv s t := by
  intro s t h
  induction h with
  | init =>
    refine ⟨?_, ?_, ?_⟩
    · intro c hc; simp [poolRecords, initialPool] at hc
    · intro p hp; simp [initialPool] at hp
    · simp [initialPool]
  | acq s t env now target hr htn ih => exact poolInv_acquireConnection env ih htn
  | rel s t now r hr htn hmem ih =>
    exact poolInv_releaseConnection ih htn
      (le_trans (ih.1 r (mem_poolRecords.mpr (Or.inl hmem))) htn)
  | des s t r hr hmem ih => exact poolInv_destroyConnection r ih
  | clean s t now hr ih => exact poolInv_cleanUpOlderThan now ih
  | closeAll s t hr ih => exact poolInv_closeAllInUseConnections ih

/-- If the candidate loop ends by rethrowing, some candidate's validation
threw, and that candidate's handle was destroyed before propagating. -/
lemma acquireConnectionLoop_threw {probe : Nat → ProbeOutcome} {now target : Nat} :
    ∀ {fuel : Nat} {s s1 : PoolState},
      acquireConnectionLoop probe now target fuel s = (s1, .threw) →
      ∃ cid, probe cid = .exn ∧ cid ∈ s1.destroyed := by
  intro fuel
  induction fuel with
  | zero =>
    intro s s1 h
    simp [acquireConnectionLoop] at h
  | succ n ih =>
    intro s s1 h
    rw [acquireConnectionLoop] at h
    split at h
    · simp at h
    · rename_i l hfind
      dsimp only [cleanUpConnList] at h
      split at h
      · simp at h
      · rename_i c rest hkept
        split at h
        · simp at h
        · rename_i hp
          have h2 := (Prod.mk.injEq _ _ _ _ ▸ h)
          simp only [Prod.mk.injEq] at h
          obtain ⟨hs, _⟩ := h
          refine ⟨c.connId, hp, ?_⟩
          rw [← hs]
          simp
        · rename_i hp
          exact ih h

/-- A failing fallback dial reports a connect or an authentication failure. -/
lemma dialNewConnection_error {env : AcquireEnv} {now target : Nat}
    {s s1 : PoolState} {e : AcquireError}
    (h : dialNewConnection env now target s = (s1, .error e)) :
    e = .connectFailed ∨ e = .authFailed := by
  unfold dialNewConnection at h
  split at h
  · simp only [Prod.mk.injEq, Except.error.injEq] at h
    exact Or.inl h.2.symm
  · split at h
    · simp only [Prod.mk.injEq, Except.error.injEq] at h
      exact Or.inr h.2.symm
    · split at h
      · simp only [Prod.mk.injEq, Except.error.injEq] at h
        exact Or.inr h.2.symm
      · simp at h

/-- An environment where every probe succeeds and dialing succeeds with
authentication disabled. -/
def envDial : AcquireEnv :=
  { probe := fun _ => .ok, dialOk := true, authEnabled := false,
    internalAuthSet := false, authOk := true }

/-- An environment where every probe throws and dialing succeeds. -/
def envExn : AcquireEnv :=
  { probe := fun _ => .exn, dialOk := true, authEnabled := false,
    internalAuthSet := false, authOk := true }

/-- Trace A: dial a connection to host 1 at time 301 and release it at 302;
then two acquires for host 2 at 700 and 1101.  The second acquire triggers
the interval-gated stale-host sweep with host 1 due. -/
def rA0 : ConnInfo := { connId := 0, host := 1, created := 301, portShutdown := false }

/-- Trace A after the first acquire. -/
def tA1 : PoolState := (acquireConnection envDial 301 1 initialPool).1

/-- Trace A after releasing the first connection. -/
def tA2 : PoolState := releaseConnection 302 rA0 tA1

/-- Trace A after an acquire for host 2 at 700 (sweep runs; host 1 not yet
due). -/
def tA3 : PoolState := (acquireConnection envDial 700 2 tA2).1

/-- Trace A after an acquire for host 2 at 1101 (sweep runs; host 1 due). -/
def tA4 : PoolState := (acquireConnection envDial 1101 2 tA3).1

/-- Trace A states are reachable. -/
lemma reached_tA2 : Reached tA2 302 :=
  Reached.rel tA1 301 302 rA0
    (Reached.acq initialPool 0 envDial 301 1 Reached.init (by omega))
    (by omega) (by decide)

/-- Trace A third state is reachable. -/
lemma reached_tA3 : Reached tA3 700 :=
  Reached.acq tA2 302 envDial 700 2 reached_tA2 (by omega)

/-- Trace A final state is reachable. -/
lemma reached_tA4 : Reached tA4 1101 :=
  Reached.acq tA3 700 envDial 1101 2 reached_tA3 (by omega)

/-- Trace B: dial to host 1 at 601, release at 602, run `cleanUpOlderThan`
at 1000 (erasing host 1 from the connection map but not from the last-used
map), then acquire host 2 at 902 (sweep runs; host 1 not yet due). -/
def rB0 : ConnInfo := { connId := 0, host := 1, created := 601, portShutdown := false }

/-- Trace B after release. -/
def tB2 : PoolState :=
  releaseConnection 602 rB0 (acquireConnection envDial 601 1 initialPool).1

/-- Trace B after the full sweep at 1000. -/
def tB3 : PoolState := cleanUpOlderThan (.d 1000) tB2

/-- Trace B final state. -/
def tB4 : PoolState := (acquireConnection envDial 902 2 tB3).1

/-- Trace B final state is reachable. -/
lemma reached_tB4 : Reached tB4 902 :=
  Reached.acq tB3 602 envDial 902 2
    (Reached.clean tB2 602 (.d 1000)
      (Reached.rel (acquireConnection envDial 601 1 initialPool).1 601 602 rB0
        (Reached.acq initialPool 0 envDial 601 1 Reached.init (by omega))
        (by omega) (by decide)))
    (by omega)

/-- Trace C: dial to host 1 at 301, release at 302, acquire host 1 at 333
(the idle record is age-expired, so the idle list of host 1 is left present
but empty and a fresh connection is dialed). -/
def tC3 : PoolState := (acquireConnection envDial 333 1 tA2).1

/-- Trace C final state is reachable. -/
lemma reached_tC3 : Reached tC3 333 :=
  Reached.acq tA2 302 envDial 333 1 reached_tA2 (by omega)

/-- The record dialed by trace C. -/
def rC1 : ConnInfo := { connId := 1, host := 1, created := 333, portShutdown := false }

/-- Trace X: dial to host 1 at 400 and release at 401, leaving one fresh idle
candidate for host 1. -/
def rX0 : ConnInfo := { connId := 0, host := 1, created := 400, portShutdown := false }

/-- Trace X final state. -/
def sX2 : PoolState :=
  releaseConnection 401 rX0 (acquireConnection envDial 400 1 initialPool).1

/-- Trace X final state is reachable. -/
lemma reached_sX2 : Reached sX2 401 :=
  Reached.rel (acquireConnection envDial 400 1 initialPool).1 400 401 rX0
    (Reached.acq initialPool 0 envDial 400 1 Reached.init (by omega))
    (by omega) (by decide)

/-- The stale-host sweep never modifies the connection map: the source sweeps
a by-value copy of each due host's idle list. -/
lemma cleanUpStaleHosts_connections (now : Nat) (s : PoolState) :
    (cleanUpStaleHosts now s).connections = s.connections := by
  unfold cleanUpStaleHosts
  split <;> rfl

/-- The fallback dial never modifies the last-used map. -/
lemma dialNewConnection_lastUsedHosts (env : AcquireEnv) (now target : Nat)
    (s : PoolState) :
    (dialNewConnection env now target s).1.lastUsedHosts = s.lastUsedHosts := by
  unfold dialNewConnection
  split
  · rfl
  · split
    · rfl
    · split <;> rfl

/-- The full sweep leaves no empty idle list in the map. -/
lemma cleanUpHostMap_ne_nil {now : Date} {p : Nat × List ConnInfo} :
    ∀ {m : List (Nat × List ConnInfo)}, p ∈ (cleanUpHostMap now m).1 → p.2 ≠ [] := by
  intro m
  induction m with
  | nil => intro h; simp [cleanUpHostMap] at h
  | cons q rest ih =>
    obtain ⟨h1, l1⟩ := q
    intro h
    simp only [cleanUpHostMap, cleanUpConnList] at h
    by_cases he : (l1.filter (shouldKeepConnection now)).isEmpty
    · rw [if_pos he] at h
      exact ih h
    · rw [if_neg he] at h
      rcases List.mem_cons.mp h with h2 | h2
      · rw [h2]
        dsimp only
        simpa [List.isEmpty_iff] using he
      · exact ih h2

/-- The sweep lookup precondition is decidable. -/
instance staleSweepLookupSafeDecidable (now : Nat) (s : PoolState) :
    Decidable (staleSweepLookupSafe now s) := by
  unfold staleSweepLookupSafe
  infer_instance

/-- An environment where the fallback dial fails to connect. -/
def envFail : AcquireEnv :=
  { probe := fun _ => .ok, dialOk := false, authEnabled := false,
    internalAuthSet := false, authOk := true }

/-- A record used to exercise `releaseConnection` directly. -/
def rW : ConnInfo := { connId := 0, host := 1, created := 100, portShutdown := false }

/-- A pool owning `rW` in its in-use list. -/
def sW : PoolState :=
  { connections := [], inUseConnections := [rW], lastUsedHosts := [],
    lastCleanUpTime := 0, destroyed := [], nextId := 1 }

/-- C1 counterexample: in the reachable state `sX2` there is one fresh idle
candidate for host 1; when its liveness probe throws, `acquireConnection`
surfaces the probe failure to the caller — not a connect or authentication
error — so a probe failure IS surfaced, contradicting the claim. -/
theorem C1_probe_exception_surfaces :
    Reached sX2 401 ∧
    idleList sX2 1 = [rX0] ∧
    envExn.probe rX0.connId = .exn ∧
    (acquireConnection envExn 402 1 sX2).2 = .error .probeFailure ∧
    (acquireConnection envExn 402 1 sX2).2 ≠ .error .connectFailed ∧
    (acquireConnection envExn 402 1 sX2).2 ≠ .error .authFailed :=
  ⟨reached_sX2, by decide, rfl, rfl,
   fun hx => absurd (Except.error.inj hx) (by decide),
   fun hx => absurd (Except.error.inj hx) (by decide)⟩

/-- C1 (amended): a liveness probe that merely reports the candidate dead is
handled internally (the candidate is destroyed and the next one is tried, or
the call falls through to dialing), and if no probe throws, the only errors
`acquireConnection` surfaces are the dial (connect-failed) and authentication
errors of the fallback path; but a probe that THROWS destroys the candidate
and propagates the exception to the caller. -/
theorem C1_probe_failure_policy :
    ∀ (env : AcquireEnv) (now target : Nat) (s s1 : PoolState)
      (res : Except AcquireError ConnInfo),
      acquireConnection env now target s = (s1, res) →
      ((∀ i, env.probe i ≠ .exn) →
        ∀ e, res = .error e → e = .connectFailed ∨ e = .authFailed) ∧
      (res = .error .probeFailure →
        ∃ cid, env.probe cid = .exn ∧ cid ∈ s1.destroyed) := by
  intro env now target s s1 res h
  unfold acquireConnection at h
  dsimp only at h
  split at h
  · rename_i s2 c heq
    simp only [Prod.mk.injEq] at h
    constructor
    · intro _ e hres
      rw [← h.2] at hres
      simp at hres
    · intro hres
      rw [← h.2] at hres
      simp at hres
  · rename_i s2 heq
    simp only [Prod.mk.injEq] at h
    obtain ⟨hs, hr⟩ := h
    constructor
    · intro hno e hres
      obtain ⟨cid, hcid, _⟩ := acquireConnectionLoop_threw heq
      exact absurd hcid (hno cid)
    · intro _
      obtain ⟨cid, hcid, hmem⟩ := acquireConnectionLoop_threw heq
      exact ⟨cid, hcid, hs ▸ hmem⟩
  · rename_i s2 heq
    constructor
    · intro hno e hres
      rw [hres] at h
      exact dialNewConnection_error h
    · intro hres
      rw [hres] at h
      rcases dialNewConnection_error h with h2 | h2 <;> simp at h2

/-- C1 witness: applying the amended policy to a failing dial on an empty
pool yields the connect-failed classification. -/
theorem C1_probe_failure_policy_witness :
    AcquireError.connectFailed = .connectFailed ∨
      AcquireError.connectFailed = .authFailed :=
  (C1_probe_failure_policy envFail 10 5 initialPool initialPool
      (.error .connectFailed) rfl).1 (fun _ h => nomatch h) _ rfl

/-- C2: in the reachable state `tA3` the interval-gated sweep at time 1101 is
due for host 1 and host 1's only idle record is age-expired; the sweep (run
inside the acquire at 1101) destroys the record's handle, resets the host's
last-activity date to the sentinel and advances the sweep time, but the
record is NOT removed from the endpoint-to-idle-list mapping: the source
sweeps a by-value copy of the list (line 114), so the claim's "removed from
that mapping's list" fails. -/
theorem C2_stale_sweep_leaves_records_in_map :
    Reached tA4 1101 ∧
    tA3.lastCleanUpTime + kCleanUpInterval < 1101 ∧
    mapFind 1 tA3.lastUsedHosts = some (.d 302) ∧
    Date.le (.d 302) (.d tA3.lastCleanUpTime) = true ∧
    idleList tA3 1 = [rA0] ∧
    shouldKeepConnection (.d 1101) rA0 = false ∧
    tA4.destroyed = [rA0.connId] ∧
    idleList tA4 1 = [rA0] ∧
    mapFind 1 tA4.lastUsedHosts = some kNeverTooStale ∧
    tA4.lastCleanUpTime = 1101 :=
  ⟨reached_tA4, by decide, by decide, by decide, by decide, by decide,
   by decide, by decide, by decide⟩

/-- C3: after the operation sequence of trace A (acquire, release, acquire,
acquire — public operations only), record `rA0` has been destroyed by the
stale-host sweep yet is still a member of host 1's idle list, so a destroyed
record is a member of one container, contradicting the claimed
exactly-one/zero-containers invariant. -/
theorem C3_destroyed_record_remains_in_idle_list :
    Reached tA4 1101 ∧ rA0.connId ∈ tA4.destroyed ∧ rA0 ∈ idleList tA4 1 :=
  ⟨reached_tA4, by decide, by decide⟩

/-- C10: the reachable state `tB4` (obtained by letting `cleanUpOlderThan`
erase host 1's idle-list entry while its last-activity entry stays) violates
the sweep's lookup precondition at time 1203: the sweep is due, host 1's
last-activity date is at most the previous sweep time, yet host 1 has no
entry in the connection map — the source would dereference the `end()`
iterator at line 114. -/
theorem C10_stale_sweep_lookup_unsafe :
    Reached tB4 902 ∧
    tB4.lastCleanUpTime + kCleanUpInterval < 1203 ∧
    (1, Date.d 602) ∈ tB4.lastUsedHosts ∧
    Date.le (.d 602) (.d tB4.lastCleanUpTime) = true ∧
    mapFind 1 tB4.connections = none ∧
    ¬ staleSweepLookupSafe 1203 tB4 :=
  ⟨reached_tB4, by decide, by decide, by decide, by decide, by decide⟩

/-- C9: in every reachable pool state, whenever the stale-host sweep runs at
time `now` (so `now > lastCleanUpTime + kCleanUpInterval`) and an endpoint's
last-activity date is at most the previous sweep time, every record of that
endpoint's idle list satisfies `created + kMaxConnectionAge <= now` — so the
age-based cleanup empties the swept list and the source's
`invariant(connList.empty())` cannot fire (this uses
`kCleanUpInterval > kMaxConnectionAge`). -/
theorem C9_stale_sweep_assertion_valid :
    ∀ (s : PoolState) (t now : Nat), Reached s t →
      s.lastCleanUpTime + kCleanUpInterval < now →
      ∀ p ∈ s.lastUsedHosts, Date.le p.2 (.d s.lastCleanUpTime) = true →
        ∀ c ∈ idleList s p.1, shouldKeepConnection (.d now) c = false := by
  intro s t now hreach hdue p hp hle c hc
  obtain ⟨hrb, hicb, hnd⟩ := poolInv_reached hreach
  obtain ⟨h1, d⟩ := p
  cases d with
  | top => simp [Date.le] at hle
  | d n =>
    have hn : n ≤ s.lastCleanUpTime := by simpa [Date.le] using hle
    unfold idleList at hc
    cases hfind : mapFind h1 s.connections with
    | none => rw [hfind] at hc; simp at hc
    | some l =>
      rw [hfind] at hc
      have hmem := mapFind_mem hfind
      have hfl : mapFind h1 s.lastUsedHosts = some (.d n) :=
        mapFind_of_mem_nodup hnd hp
      have hcle : c.created ≤ n := hicb (h1, l) hmem c (by simpa using hc) n hfl
      rw [shouldKeepConnection_eq_false_iff]
      simp only [kMaxConnectionAge, kCleanUpInterval] at *
      omega

/-- C9 witness: in the reachable state `tA3` a sweep at 1101 is due, host 1
is stale, and every record of its idle list is indeed expired at 1101. -/
theorem C9_stale_sweep_assertion_valid_witness :
    tA3.lastCleanUpTime + kCleanUpInterval < 1101 ∧
    (1, Date.d 302) ∈ tA3.lastUsedHosts ∧
    Date.le (Date.d 302) (.d tA3.lastCleanUpTime) = true ∧
    (∀ c ∈ idleList tA3 1, shouldKeepConnection (.d 1101) c = false) :=
  ⟨by decide, by decide, by decide,
   C9_stale_sweep_assertion_valid tA3 700 1101 reached_tA3 (by decide)
     (1, Date.d 302) (by decide) (by decide)⟩

/-- C4 counterexample: acquiring for host 5 on a fresh pool (host 5's idle
list is ABSENT from the mapping) dials a new connection but does NOT set the
endpoint's last-activity date to the never-stale sentinel — the last-used map
stays empty, contradicting the claim that the sentinel is set whenever the
idle list is absent. -/
theorem C4_absent_idle_list_sentinel_not_set :
    mapFind 5 initialPool.connections = none ∧
    (acquireConnection envDial 10 5 initialPool).1.lastUsedHosts = [] ∧
    mapFind 5 (acquireConnection envDial 10 5 initialPool).1.lastUsedHosts ≠
      some kNeverTooStale ∧
    (acquireConnection envDial 10 5 initialPool).2 =
      .ok { connId := 0, host := 5, created := 10, portShutdown := false } :=
  ⟨by decide, by decide, by decide, rfl⟩

/-- C4 (amended): in `acquireConnection`, when the target's idle list is
present but becomes empty after removing age-expired entries, the endpoint's
last-activity date is set to the never-stale sentinel and the call falls
through to dialing; when the idle list is absent from the mapping, the call
falls through to dialing WITHOUT touching the last-activity map (the sentinel
assignment sits inside the loop body, which never runs when the lookup
fails). -/
theorem C4_empty_or_absent_idle_list :
    ∀ (env : AcquireEnv) (now target : Nat) (s : PoolState),
      (mapFind target s.connections = none →
        acquireConnection env now target s =
          dialNewConnection env now target (cleanUpStaleHosts now s) ∧
        (acquireConnection env now target s).1.lastUsedHosts =
          (cleanUpStaleHosts now s).lastUsedHosts) ∧
      (∀ l, mapFind target s.connections = some l →
        l.filter (shouldKeepConnection (.d now)) = [] →
        acquireConnection env now target s =
          dialNewConnection env now target
            { cleanUpStaleHosts now s with
              connections :=
                mapSet target [] (cleanUpStaleHosts now s).connections,
              destroyed :=
                (cleanUpStaleHosts now s).destroyed ++
                  (l.filter (fun c => ! shouldKeepConnection (.d now) c)).map
                    ConnInfo.connId,
              lastUsedHosts :=
                mapSet target kNeverTooStale
                  (cleanUpStaleHosts now s).lastUsedHosts } ∧
        mapFind target (acquireConnection env now target s).1.lastUsedHosts =
          some kNeverTooStale) := by
  intro env now target s
  constructor
  · intro hfind
    have hfind0 : mapFind target (cleanUpStaleHosts now s).connections = none := by
      rw [cleanUpStaleHosts_connections]; exact hfind
    have hacq : acquireConnection env now target s =
        dialNewConnection env now target (cleanUpStaleHosts now s) := by
      unfold acquireConnection
      dsimp only
      rw [acquireConnectionLoop]
      rw [hfind0]
    refine ⟨hacq, ?_⟩
    rw [hacq, dialNewConnection_lastUsedHosts]
  · intro l hfind hempty
    have hfind0 : mapFind target (cleanUpStaleHosts now s).connections = some l := by
      rw [cleanUpStaleHosts_connections]; exact hfind
    have hacq : acquireConnection env now target s =
        dialNewConnection env now target
          { cleanUpStaleHosts now s with
            connections :=
              mapSet target [] (cleanUpStaleHosts now s).connections,
            destroyed :=
              (cleanUpStaleHosts now s).destroyed ++
                (l.filter (fun c => ! shouldKeepConnection (.d now) c)).map
                  ConnInfo.connId,
            lastUsedHosts :=
              mapSet target kNeverTooStale
                (cleanUpStaleHosts now s).lastUsedHosts } := by
      unfold acquireConnection
      dsimp only
      rw [acquireConnectionLoop]
      rw [hfind0]
      dsimp only [cleanUpConnList]
      rw [hempty]
    refine ⟨hacq, ?_⟩
    rw [hacq, dialNewConnection_lastUsedHosts]
    dsimp only
    rw [mapFind_mapSet_self]

/-- C4 witness: the empty-after-cleanup branch fires for host 1 of `tA2` at
time 333, and the absent branch fires on the fresh pool. -/
theorem C4_empty_or_absent_idle_list_witness :
    mapFind 1 tA2.connections = some [rA0] ∧
    ([rA0].filter (shouldKeepConnection (.d 333)) = []) ∧
    mapFind 1 (acquireConnection envDial 333 1 tA2).1.lastUsedHosts =
      some kNeverTooStale ∧
    (acquireConnection envDial 10 5 initialPool).1.lastUsedHosts =
      (cleanUpStaleHosts 10 initialPool).lastUsedHosts :=
  ⟨by decide, by decide,
   ((C4_empty_or_absent_idle_list envDial 333 1 tA2).2 [rA0] (by decide)
     (by decide)).2,
   ((C4_empty_or_absent_idle_list envDial 10 5 initialPool).1 (by decide)).2⟩

/-- C5: `releaseConnection(r, now)` always removes `r` from the in-use list;
when `r.created + kMaxConnectionAge <= now` it destroys `r` immediately,
leaving the connection map (hence every idle list's size) and the last-used
map unchanged; otherwise it sweeps the idle list of `r`'s endpoint, moves `r`
to its front, stamps the endpoint's last-activity date with `now`, and leaves
every other endpoint's idle list unchanged. -/
theorem C5_release_behavior :
    ∀ (now : Nat) (r : ConnInfo) (s : PoolState),
      (releaseConnection now r s).inUseConnections =
        s.inUseConnections.erase r ∧
      (r.created + kMaxConnectionAge ≤ now →
        (releaseConnection now r s).connections = s.connections ∧
        (releaseConnection now r s).lastUsedHosts = s.lastUsedHosts ∧
        (releaseConnection now r s).destroyed = s.destroyed ++ [r.connId]) ∧
      (now < r.created + kMaxConnectionAge →
        idleList (releaseConnection now r s) r.host =
          r :: (idleList s r.host).filter (shouldKeepConnection (.d now)) ∧
        mapFind r.host (releaseConnection now r s).lastUsedHosts =
          some (.d now) ∧
        (∀ h, h ≠ r.host →
          idleList (releaseConnection now r s) h = idleList s h) ∧
        (releaseConnection now r s).destroyed = s.destroyed ++
          ((idleList s r.host).filter
            (fun c => ! shouldKeepConnection (.d now) c)).map ConnInfo.connId) := by
  intro now r s
  by_cases hk : shouldKeepConnection (.d now) r = true
  · have hlt : now < r.created + kMaxConnectionAge := by
      by_contra hge
      rw [shouldKeepConnection_eq_false_iff.mpr (by omega)] at hk
      exact absurd hk (by simp)
    unfold releaseConnection
    rw [if_neg (by simp [hk])]
    refine ⟨rfl, fun hexp => absurd hexp (by omega), fun _ => ⟨?_, ?_, ?_, ?_⟩⟩
    · unfold idleList
      dsimp only [cleanUpConnList]
      rw [mapFind_mapSet_self]
      rfl
    · dsimp only
      rw [mapFind_mapSet_self]
    · intro h hne
      unfold idleList
      dsimp only
      rw [mapFind_mapSet_ne hne]
    · rfl
  · have hkf : shouldKeepConnection (.d now) r = false := by
      revert hk
      cases shouldKeepConnection (.d now) r <;> simp
    have hexp : r.created + kMaxConnectionAge ≤ now :=
      shouldKeepConnection_eq_false_iff.mp hkf
    unfold releaseConnection
    rw [if_pos (by simp [hkf])]
    exact ⟨rfl, fun _ => ⟨rfl, rfl, rfl⟩, fun hlt => absurd hexp (by omega)⟩

/-- C5 witness: releasing the expired `rW` at 150 leaves the connection map
unchanged; releasing it fresh at 101 stamps the last-activity date and leaves
other hosts' idle lists unchanged. -/
theorem C5_release_behavior_witness :
    (rW.created + kMaxConnectionAge ≤ 150) ∧
    (releaseConnection 150 rW sW).connections = sW.connections ∧
    (101 < rW.created + kMaxConnectionAge) ∧
    mapFind 1 (releaseConnection 101 rW sW).lastUsedHosts = some (.d 101) ∧
    idleList (releaseConnection 101 rW sW) 7 = idleList sW 7 :=
  ⟨by decide, ((C5_release_behavior 150 rW sW).2.1 (by decide)).1, by decide,
   ((C5_release_behavior 101 rW sW).2.2 (by decide)).2.1,
   ((C5_release_behavior 101 rW sW).2.2 (by decide)).2.2.1 7 (by decide)⟩

/-- C6 counterexample: in the reachable state `tC3`, host 1 owns a present
but EMPTY idle list; at time 0 every record of the pool (only `rC1`, in use,
created at 333) has its creation time after 0, yet `cleanUpOlderThan 0` is
not a no-op — it erases the empty idle-list entry from the mapping. -/
theorem C6_cleanup_not_noop_on_empty_entry :
    Reached tC3 333 ∧
    mapFind 1 tC3.connections = some [] ∧
    poolRecords tC3 = [rC1] ∧
    Date.le (.d rC1.created) (.d 0) = false ∧
    cleanUpOlderThan (.d 0) tC3 ≠ tC3 :=
  ⟨reached_tC3, by decide, by decide, by decide, by decide⟩

/-- C6 (amended): `cleanUpOlderThan(now)` does not modify the in-use list,
the last-used map or the sweep time; it destroys exactly the ids of the
age-expired idle records; every surviving binding is the nonempty age-filtered
idle list of an original binding (so endpoints left with empty idle lists,
including already-empty ones, are removed); a host whose filtered list is
nonempty keeps exactly that filtered list; and when every idle list in the
mapping is nonempty and `now` precedes every record's creation time, the call
is a no-op. -/
theorem C6_cleanup_older_than :
    ∀ (now : Date) (s : PoolState),
      (cleanUpOlderThan now s).inUseConnections = s.inUseConnections ∧
      (cleanUpOlderThan now s).lastUsedHosts = s.lastUsedHosts ∧
      (cleanUpOlderThan now s).lastCleanUpTime = s.lastCleanUpTime ∧
      (cleanUpOlderThan now s).destroyed = s.destroyed ++
        (s.connections.map (fun p =>
          (p.2.filter (fun c => ! shouldKeepConnection now c)).map
            ConnInfo.connId)).flatten ∧
      (∀ p ∈ (cleanUpOlderThan now s).connections,
        p.2 ≠ [] ∧ ∃ l, (p.1, l) ∈ s.connections ∧
          p.2 = l.filter (shouldKeepConnection now)) ∧
      (∀ h l, mapFind h s.connections = some l →
        l.filter (shouldKeepConnection now) ≠ [] →
        mapFind h (cleanUpOlderThan now s).connections =
          some (l.filter (shouldKeepConnection now))) ∧
      ((∀ p ∈ s.connections, p.2 ≠ []) →
        (∀ c ∈ poolRecords s, Date.le (.d c.created) now = false) →
        cleanUpOlderThan now s = s) := by
  intro now s
  refine ⟨rfl, rfl, rfl, ?_, ?_, ?_, ?_⟩
  · unfold cleanUpOlderThan
    dsimp only
    rw [cleanUpHostMap_dead]
  · intro p hp
    exact ⟨cleanUpHostMap_ne_nil hp, mem_cleanUpHostMap hp⟩
  · intro h l hfind hne
    unfold cleanUpOlderThan
    dsimp only
    exact mapFind_cleanUpHostMap_pos hfind hne
  · intro hne hfresh
    have hkeep : ∀ p ∈ s.connections, ∀ c ∈ p.2, shouldKeepConnection now c = true :=
      fun p hp c hc => shouldKeepConnection_of_created_gt
        (hfresh c (mem_poolRecords.mpr (Or.inr ⟨p, hp, hc⟩)))
    unfold cleanUpOlderThan
    dsimp only
    rw [cleanUpHostMap_noop hne hkeep]
    simp

/-- C6 witness: a nonempty surviving idle list is kept filtered, and on a
pool whose only records are younger than `now` with nonempty idle lists the
sweep is a no-op. -/
theorem C6_cleanup_older_than_witness :
    mapFind 1 sX2.connections = some [rX0] ∧
    ([rX0].filter (shouldKeepConnection (.d 401)) ≠ []) ∧
    mapFind 1 (cleanUpOlderThan (.d 401) sX2).connections =
      some ([rX0].filter (shouldKeepConnection (.d 401))) ∧
    cleanUpOlderThan (.d 5) sX2 = sX2 :=
  ⟨by decide, by decide,
   (C6_cleanup_older_than (.d 401) sX2).2.2.2.2.2.1 1 [rX0] (by decide)
     (by decide),
   (C6_cleanup_older_than (.d 5) sX2).2.2.2.2.2.2 (by decide) (by decide)⟩

/-- C7: the scoped wrapper's terminal operation `done(now)` invokes
`releaseConnection` and nulls the pool pointer, after which destruction
performs no pool operation; destruction of a wrapper whose pool pointer is
still set invokes `destroyConnection`; and a successfully constructed wrapper
starts with the pool pointer set — so exactly one of release or destroy is
applied to every successfully acquired record. -/
theorem C7_scoped_handle_release_xor_destroy :
    ∀ (p : ConnectionPtr) (now : Nat) (s : PoolState),
      (∀ (env : AcquireEnv) (t target : Nat) (s0 s1 : PoolState),
        acquireScopedConnection env t target s0 = (s1, .ok p) →
          p.hasPool = true) ∧
      ((p.done now s).1.hasPool = false) ∧
      ((p.done now s).2 = releaseConnection now p.record s) ∧
      (ConnectionPtr.dtor (p.done now s).1 (p.done now s).2 = (p.done now s).2) ∧
      (p.hasPool = true → p.dtor s = destroyConnection p.record s) := by
  intro p now s
  refine ⟨?_, rfl, rfl, rfl, ?_⟩
  · intro env t target s0 s1 h
    unfold acquireScopedConnection at h
    split at h
    · rename_i s2 c heq
      simp only [Prod.mk.injEq] at h
      have h2 := h.2
      injection h2 with h2
      rw [← h2]
    · rename_i s2 e heq
      simp only [Prod.mk.injEq] at h
      exact absurd h.2 (by simp)
  · intro h
    unfold ConnectionPtr.dtor
    rw [if_pos h]

/-- C7 witness: a successful scoped acquisition yields a wrapper with the
pool pointer set, and destroying an unfinished wrapper destroys its record. -/
theorem C7_scoped_handle_release_xor_destroy_witness :
    ({ hasPool := true, record := rX0 } : ConnectionPtr).hasPool = true ∧
    ConnectionPtr.dtor { hasPool := true, record := rX0 } sX2 =
      destroyConnection rX0 sX2 :=
  ⟨(C7_scoped_handle_release_xor_destroy ⟨true, rX0⟩ 402 sX2).1 envDial 400 1
      initialPool (acquireConnection envDial 400 1 initialPool).1 rfl,
   (C7_scoped_handle_release_xor_destroy ⟨true, rX0⟩ 402 sX2).2.2.2.2 rfl⟩

/-- C8: `closeAllInUseConnections` shuts down the port of every in-use record
and changes nothing else: the in-use records keep their identities (none
added, none removed), and the connection map, last-used map, sweep time and
destroyed list are untouched. -/
theorem C8_close_all_in_use_frame :
    ∀ s : PoolState,
      (closeAllInUseConnections s).inUseConnections =
        s.inUseConnections.map shutdownConn ∧
      (closeAllInUseConnections s).inUseConnections.map ConnInfo.connId =
        s.inUseConnections.map ConnInfo.connId ∧
      (closeAllInUseConnections s).inUseConnections.length =
        s.inUseConnections.length ∧
      (∀ c ∈ (closeAllInUseConnections s).inUseConnections,
        c.portShutdown = true) ∧
      (closeAllInUseConnections s).connections = s.connections ∧
      (closeAllInUseConnections s).lastUsedHosts = s.lastUsedHosts ∧
      (closeAllInUseConnections s).lastCleanUpTime = s.lastCleanUpTime ∧
      (closeAllInUseConnections s).destroyed = s.destroyed := by
  intro s
  refine ⟨rfl, ?_, ?_, ?_, rfl, rfl, rfl, rfl⟩
  · unfold closeAllInUseConnections
    dsimp only
    rw [List.map_map]
    exact List.map_congr_left (fun a _ => rfl)
  · unfold closeAllInUseConnections
    dsimp only
    rw [List.length_map]
  · intro c hc
    unfold closeAllInUseConnections at hc
    dsimp only at hc
    rcases List.mem_map.mp hc with ⟨c0, _, hsc⟩
    rw [← hsc]
    rfl

/-- C8 witness: in `tA1` (one in-use record), the record survives the call
with its port flagged shut down. -/
theorem C8_close_all_in_use_frame_witness :
    shutdownConn rA0 ∈ (closeAllInUseConnections tA1).inUseConnections ∧
    (shutdownConn rA0).portShutdown = true :=
  ⟨by decide,
   (C8_close_all_in_use_frame tA1).2.2.2.1 (shutdownConn rA0) (by decide)⟩
